import Mathlib

/-!
Shallow embedding of the valutatrade_hub exchange-rate engine:
the currency registry (`core/currencies.py`), the cache read path
(`core/usecases.py::get_rate` together with `core/utils.py::_load_json` and
`infra/database.py::read_rates`), and the parser service
(`parser_service/storage.py` and `parser_service/updater.py::run_update`).

Python strings become Lean `String`, compared by code points exactly as
Python compares them; the comparison and case functions are implemented
structurally over the character list so that every definition evaluates
inside the kernel.  Python floats appearing as rates become `ℚ` wrapped in
`Option`, where `none` stands for a value on which `float(...)` raises.
JSON values are modelled by small inductive types carrying exactly the
distinctions the code branches on.  `datetime` instants are modelled as
seconds on an integer timeline together with a timezone-awareness flag.
-/

namespace VH

/-- `listHasPre p l` holds when `p` is an initial segment of `l`. -/
def listHasPre : List Char → List Char → Bool
  | [], _ => true
  | _ :: _, [] => false
  | p :: ps, c :: cs => p = c && listHasPre ps cs

/-- `listFindSub p l` holds when `p` occurs as a contiguous sublist of `l`. -/
def listFindSub (p : List Char) : List Char → Bool
  | [] => p.isEmpty
  | l@(_ :: cs) => listHasPre p l || listFindSub p cs

/-- Model of Python's `pat in hay` substring test on strings. -/
def strContains (hay pat : String) : Bool :=
  listFindSub pat.data hay.data

/-- Model of Python's `str.lower()` (ASCII case, which is all the code uses). -/
def pyLower (s : String) : String := ⟨s.data.map Char.toLower⟩

/-- Model of Python's `str.upper()`. -/
def pyUpper (s : String) : String := ⟨s.data.map Char.toUpper⟩

/-- Model of Python's `str.strip()`: drop leading and trailing whitespace. -/
def pyStrip (s : String) : String :=
  ⟨((s.data.dropWhile Char.isWhitespace).reverse.dropWhile Char.isWhitespace).reverse⟩

/-- Code-point lexicographic strict comparison on character lists, which is
exactly Python's `<` on `str`. -/
def strLtB : List Char → List Char → Bool
  | [], [] => false
  | [], _ :: _ => true
  | _ :: _, [] => false
  | a :: as, b :: bs =>
      if a.toNat < b.toNat then true
      else if b.toNat < a.toNat then false
      else strLtB as bs

/-- Python's `s < t` on strings. -/
def pyStrLt (s t : String) : Bool := strLtB s.data t.data

/-- Python truthiness of a string: nonempty. -/
def pyTruthy (s : String) : Bool := !s.data.isEmpty

/-- Supported currency codes, from the `_REGISTRY` literal in
`core/currencies.py`. -/
def registryCodes : List String :=
  ["USD", "EUR", "GBP", "RUB", "BTC", "ETH", "SOL"]

/-- Error taxonomy of the read path: one constructor per distinct raise site
in `core/currencies.py` and `core/usecases.py::get_rate`. -/
inductive RateError where
  | validation
  | currencyNotFound (code : String)
  | cacheEmpty
  | pairNotCached (pair : String)
  | corruptTimestamp (pair : String)
  | stale (pair : String)
  | corruptRate (pair : String)
deriving DecidableEq, Repr

instance {ε α : Type} [DecidableEq ε] [DecidableEq α] : DecidableEq (Except ε α) := by
  intro a b
  cases a <;> cases b
  case error.error e₁ e₂ =>
      exact if h : e₁ = e₂ then isTrue (by rw [h]) else
        isFalse (by intro hc; injection hc; contradiction)
  case error.ok e₁ a₂ => exact isFalse (by intro hc; injection hc)
  case ok.error a₁ e₂ => exact isFalse (by intro hc; injection hc)
  case ok.ok a₁ a₂ =>
      exact if h : a₁ = a₂ then isTrue (by rw [h]) else
        isFalse (by intro hc; injection hc; contradiction)

/-- Model of `currencies._validate_code`: strip, uppercase, require length
2..5 and no space. -/
def validateCode (code : String) : Except RateError String :=
  let c := pyUpper (pyStrip code)
  if 2 ≤ c.data.length ∧ c.data.length ≤ 5 ∧ ¬ c.data.contains ' ' then Except.ok c
  else Except.error RateError.validation

/-- Model of `currencies.get_currency`, projected to the currency code
(the only field of the `Currency` object the claims consult). -/
def getCurrency (code : String) : Except RateError String :=
  match validateCode code with
  | Except.error e => Except.error e
  | Except.ok c =>
      if registryCodes.contains c then Except.ok c
      else Except.error (RateError.currencyNotFound c)

/-! ## ISO-8601 timestamps

`_parse_iso` in `core/usecases.py` wraps `datetime.fromisoformat`.  The model
below parses the fixed format this system writes — `YYYY-MM-DDTHH:MM:SS`
optionally suffixed by `Z` or `+00:00` (a UTC offset) — and converts to
seconds since the Unix epoch, together with an awareness flag that is true
exactly when the string carries an offset. -/

def isLeap (y : Nat) : Bool := (y % 4 == 0 && y % 100 != 0) || y % 400 == 0

/-- Days in a month (1-12). -/
def monthDays (leap : Bool) (m : Nat) : Nat :=
  match m with
  | 1 => 31 | 2 => if leap then 29 else 28 | 3 => 31 | 4 => 30 | 5 => 31
  | 6 => 30 | 7 => 31 | 8 => 31 | 9 => 30 | 10 => 31 | 11 => 30 | 12 => 31
  | _ => 0

/-- Days elapsed before month `m` in a common year. -/
def daysBeforeMonth (m : Nat) : Nat :=
  match m with
  | 1 => 0 | 2 => 31 | 3 => 59 | 4 => 90 | 5 => 120 | 6 => 151 | 7 => 181
  | 8 => 212 | 9 => 243 | 10 => 273 | 11 => 304 | 12 => 334 | _ => 0

/-- Seconds since 1970-01-01T00:00:00 of a civil date-time (proleptic
Gregorian; 719162 is the day count from 0001-01-01 to the epoch). -/
def civilToEpochSecs (y mo d h mi s : Nat) : Int :=
  let leap := isLeap y
  let days : Nat :=
    365 * (y - 1) + (y - 1) / 4 - (y - 1) / 100 + (y - 1) / 400
      + daysBeforeMonth mo + (if leap ∧ 3 ≤ mo then 1 else 0) + (d - 1)
  ((days : Int) - 719162) * 86400 + ((h * 3600 + mi * 60 + s : Nat) : Int)

/-- Accumulate the numeric value of a digit list. -/
def digitsVal : List Char → Nat → Nat
  | [], acc => acc
  | c :: cs, acc => digitsVal cs (acc * 10 + (c.toNat - 48))

/-- Parse a fixed-width all-digit field. -/
def natFixed (l : List Char) (n : Nat) : Option Nat :=
  if l.length = n ∧ l.all Char.isDigit then some (digitsVal l 0) else none

/-- Split a character list at every occurrence of `sep` (Python `str.split`). -/
def splitOnChar (sep : Char) : List Char → List (List Char)
  | [] => [[]]
  | c :: cs =>
      let r := splitOnChar sep cs
      if c = sep then [] :: r
      else
        match r with
        | [] => [[c]]
        | x :: xs => (c :: x) :: xs

/-- Split at the first occurrence of `sep` (Python `str.split(sep, 1)` when a
separator is present; `none` when it is absent). -/
def splitOnceChar (sep : Char) : List Char → Option (List Char × List Char)
  | [] => none
  | c :: cs =>
      if c = sep then some ([], cs)
      else
        match splitOnceChar sep cs with
        | none => none
        | some (x, y) => some (c :: x, y)

/-- Strip a suffix, or fail. -/
def stripSuffix (l suf : List Char) : Option (List Char) :=
  if suf.isSuffixOf l then some (l.take (l.length - suf.length)) else none

/-- Model of `_parse_iso` (a guarded `datetime.fromisoformat`) on the
timestamp format this repository writes: returns epoch seconds and whether
the string carried a UTC offset, or `none` when parsing fails. -/
def parseIso (s : String) : Option (Int × Bool) :=
  let l := s.data
  let core_aware : List Char × Bool :=
    match stripSuffix l ['Z'] with
    | some c => (c, true)
    | none =>
        match stripSuffix l "+00:00".data with
        | some c => (c, true)
        | none => (l, false)
  match splitOnceChar 'T' core_aware.1 with
  | none => none
  | some (d, t) =>
      match splitOnChar '-' d, splitOnChar ':' t with
      | [ys, ms, ds], [hs, mis, ss] =>
          match natFixed ys 4, natFixed ms 2, natFixed ds 2,
                natFixed hs 2, natFixed mis 2, natFixed ss 2 with
          | some y, some mo, some dd, some h, some mi, some sec =>
              if 1 ≤ y ∧ 1 ≤ mo ∧ mo ≤ 12 ∧ 1 ≤ dd ∧ dd ≤ monthDays (isLeap y) mo
                  ∧ h ≤ 23 ∧ mi ≤ 59 ∧ sec ≤ 59 then
                some (civilToEpochSecs y mo dd h mi sec, core_aware.2)
              else none
          | _, _, _, _, _, _ => none
      | _, _ => none

/-! ## Snapshot file data model

A snapshot pair entry serialises as a JSON object with fields `rate`,
`updated_at`, `source`.  `rate` is `Option ℚ`: `some r` when `float(...)`
on the stored value succeeds, `none` when it raises.  `updated_at` and
`source` are `Option String`, `none` standing for an absent key (`.get`
defaults fill in). -/

structure SnapEntry where
  rate : Option ℚ
  updated_at : Option String
  source : Option String
deriving DecidableEq, Repr

/-- A value stored under a pair key: either a JSON object or something else
(`isinstance(info, dict)` checks in the code branch on this). -/
inductive EntryVal where
  | dict (e : SnapEntry)
  | nonDict
deriving DecidableEq, Repr

/-- The `pairs` field of the snapshot file: absent, not an object, or an
object given as an association list (Python dicts preserve insertion
order). -/
inductive PairsField where
  | absent
  | nonDict
  | dict (entries : List (String × EntryVal))
deriving DecidableEq, Repr

/-- A parsed snapshot file: a JSON object with its `pairs` and
`last_refresh` fields, or a non-object JSON value. -/
inductive RatesJson where
  | obj (pairs : PairsField) (lastRefresh : Option String)
  | nonObj
deriving DecidableEq, Repr

/-- On-disk state of the rates file. -/
inductive FileState where
  | missing
  | empty
  | corrupt
  | json (v : RatesJson)
deriving DecidableEq, Repr

/-- Model of `parser_service/storage.py::read_json` with default `\x7b\x7d`
(the empty object): a missing, empty or unparseable file yields the
default. -/
def readJsonRates : FileState → RatesJson
  | FileState.missing => RatesJson.obj PairsField.absent none
  | FileState.empty => RatesJson.obj PairsField.absent none
  | FileState.corrupt => RatesJson.obj PairsField.absent none
  | FileState.json v => v

/-- Model of `core/utils.py::_load_json` for the rates file: identical
outcome, except that the missing-file case goes through `ensure_storage`,
which first creates the file holding an empty JSON object. -/
def loadJsonRates : FileState → RatesJson
  | FileState.missing => RatesJson.obj PairsField.absent none
  | FileState.empty => RatesJson.obj PairsField.absent none
  | FileState.corrupt => RatesJson.obj PairsField.absent none
  | FileState.json v => v

/-- Model of `DatabaseManager.read_rates`: `_load_json` coerced to a dict. -/
def readRatesDb (fs : FileState) : RatesJson :=
  match loadJsonRates fs with
  | RatesJson.nonObj => RatesJson.obj PairsField.absent none
  | v => v

/-- First-match association-list lookup (Python `dict.get` on a dict without
duplicate keys). -/
def assocGet {α : Type} (m : List (String × α)) (k : String) : Option α :=
  match m with
  | [] => none
  | (k', v) :: rest => if k' = k then some v else assocGet rest k

/-- In-place update or append (Python `d[k] = v`). -/
def assocSet {α : Type} (m : List (String × α)) (k : String) (v : α) :
    List (String × α) :=
  match m with
  | [] => [(k, v)]
  | (k', v') :: rest =>
      if k' = k then (k, v) :: rest else (k', v') :: assocSet rest k v

/-- Python `d.update(other)` applied binding by binding. -/
def assocUpdateAll {α : Type} (m : List (String × α)) (kvs : List (String × α)) :
    List (String × α) :=
  kvs.foldl (fun acc kv => assocSet acc kv.1 kv.2) m

/-- A successful quote from `get_rate`: the returned dict.  `updated_at`
carries the parsed instant (epoch seconds and awareness flag). -/
structure Quote where
  pair : String
  rate : ℚ
  updated_at : Int × Bool
  source : String
deriving DecidableEq, Repr

/-- Model of `core/usecases.py::get_rate`.  `ttl` is
`int(settings.get("RATES_TTL_SECONDS", 300))`; `nowUtc` and `nowLocal` are
the two clocks `datetime.now(timezone.utc)` and `datetime.now()`, in epoch
seconds on their respective timelines; the code picks one according to the
awareness of the stored timestamp. -/
def getRate (fromCur toCur : String) (ttl : Int) (nowUtc nowLocal : Int)
    (fs : FileState) : Except RateError Quote :=
  match getCurrency fromCur with
  | Except.error e => Except.error e
  | Except.ok fromCode =>
  match getCurrency toCur with
  | Except.error e => Except.error e
  | Except.ok toCode =>
      let pair := fromCode ++ "_" ++ toCode
      match readRatesDb fs with
      | RatesJson.nonObj => Except.error RateError.cacheEmpty
      | RatesJson.obj pf _ =>
      match pf with
      | PairsField.absent => Except.error RateError.cacheEmpty
      | PairsField.nonDict => Except.error RateError.cacheEmpty
      | PairsField.dict entries =>
          if entries.isEmpty then Except.error RateError.cacheEmpty
          else
            match assocGet entries pair with
            | none => Except.error (RateError.pairNotCached pair)
            | some EntryVal.nonDict => Except.error (RateError.pairNotCached pair)
            | some (EntryVal.dict e) =>
                match parseIso (e.updated_at.getD "") with
                | none => Except.error (RateError.corruptTimestamp pair)
                | some (ts, aware) =>
                    let now : Int := if aware then nowUtc else nowLocal
                    if now - ts > ttl then Except.error (RateError.stale pair)
                    else
                      match e.rate with
                      | none => Except.error (RateError.corruptRate pair)
                      | some r =>
                          Except.ok { pair := pair, rate := r,
                                      updated_at := (ts, aware),
                                      source := e.source.getD "unknown" }

/-! ## History file and `append_history` -/

/-- A history record as built by the updater (`meta`, an opaque diagnostic
bag never consulted afterwards, is not modelled).  `id` is `Option String`
because `append_history` reads ids with `r.get("id")`, which may be absent
on records supplied by other callers. -/
structure HistRec where
  id : Option String
  from_currency : String
  to_currency : String
  rate : ℚ
  timestamp : String
  source : String
deriving DecidableEq, Repr

/-- An element of the stored history array: a JSON object or not
(`isinstance(r, dict)` branches on this). -/
inductive HistEntry where
  | obj (r : HistRec)
  | nonDict
deriving DecidableEq, Repr

/-- The set `existing` in `append_history`: ids of the already-stored dict
entries. -/
def existingIds (data : List HistEntry) : List (Option String) :=
  data.filterMap fun e =>
    match e with
    | HistEntry.obj r => some r.id
    | HistEntry.nonDict => none

/-- Model of `parser_service/storage.py::append_history` on the parsed
history list: append each batch record whose id is not among the ids already
stored (the `existing` set is computed once, before the loop). -/
def appendHistory (data : List HistEntry) (records : List HistRec) :
    List HistEntry :=
  data ++ (records.filter fun r => !(existingIds data).contains r.id).map HistEntry.obj

/-- Number of stored dict records carrying a given id. -/
def countId (data : List HistEntry) (i : Option String) : Nat :=
  (data.filter fun e =>
    match e with
    | HistEntry.obj r => r.id == i
    | HistEntry.nonDict => false).length

/-! ## The updater (`parser_service/updater.py::run_update`) -/

/-- A raw per-pair payload as produced by a provider client.  `rate` is
`some` exactly when `float(info["rate"])` succeeds; `timestamp` and `source`
are `some` exactly when the key is present (`str(...)` never fails);
`metaOk` is false exactly when `dict(info.get("meta", ...))` raises. -/
structure RawInfo where
  rate : Option ℚ
  timestamp : Option String
  source : Option String
  metaOk : Bool
deriving DecidableEq, Repr

/-- A configured provider client: its class name and the outcome of
`fetch_rates()` — either a rates dict or the reason of the
`ApiRequestError` it raises. -/
structure Client where
  className : String
  result : Except String (List (String × RawInfo))
deriving DecidableEq, Repr

/-- The message of an `ApiRequestError` (`core/exceptions.py`). -/
def apiErrorText (reason : String) : String :=
  "Ошибка при обращении к внешнему API: " ++ reason

/-- The per-client error string `f"..ClassName..: ..e.."` recorded in
`errors`. -/
def errMsgOf (c : Client) : String :=
  match c.result with
  | Except.error r => c.className ++ ": " ++ apiErrorText r
  | Except.ok _ => ""

/-- The client-selection predicate of `run_update`'s fetch loop: an unset or
empty `source` selects everything; the literal `"coingecko"` keeps clients
whose lowercased class name contains `"coingecko"`; the three
`"exchangerate*"` literals keep clients whose name contains `"exchange"`;
any other filter string skips nothing. -/
def clientSelected (source : Option String) (c : Client) : Bool :=
  match source with
  | none => true
  | some src =>
      if src = "" then true
      else
        let s := pyLower src
        let name := pyLower c.className
        if s = "coingecko" then strContains name "coingecko"
        else if s = "exchangerate" || s = "exchangerate-api" || s = "exchangerateapi" then
          strContains name "exchange"
        else true

/-- Clients surviving the filter, in configuration order. -/
def selectedClients (clients : List Client) (source : Option String) :
    List Client :=
  clients.filter (clientSelected source)

/-- One step of the fetch loop: merge a successful payload into `combined`
(later clients overwrite earlier ones per key), or record the error
string. -/
def fetchStep (acc : List (String × RawInfo) × List String) (c : Client) :
    List (String × RawInfo) × List String :=
  match c.result with
  | Except.ok data => (assocUpdateAll acc.1 data, acc.2)
  | Except.error r => (acc.1, acc.2 ++ [c.className ++ ": " ++ apiErrorText r])

/-- The fetch loop over the selected clients. -/
def fetchAll (clients : List Client) : List (String × RawInfo) × List String :=
  clients.foldl fetchStep ([], [])

/-- The freshness guard of the candidate loop:
`if isinstance(prev, dict): prev_ts = str(prev.get("updated_at", "")); if
prev_ts and prev_ts >= ts: continue`.  Returns true when the candidate is
written into `pairs_snapshot`. -/
def shouldReplace (prev : Option EntryVal) (ts : String) : Bool :=
  match prev with
  | some (EntryVal.dict e) =>
      let prev_ts := e.updated_at.getD ""
      if pyTruthy prev_ts && !pyStrLt prev_ts ts then false else true
  | some EntryVal.nonDict => true
  | none => true

/-- The body of the candidate loop for a single `(pair, info)` item of
`combined`: validate and normalise, build the history record, and decide
whether the snapshot entry is replaced.  `none` models the
`except Exception` path that skips the item entirely. -/
def processPair (currentPairs : List (String × EntryVal)) (pair : String)
    (info : RawInfo) : Option (HistRec × Option (String × SnapEntry)) :=
  match splitOnceChar '_' pair.data with
  | none => none
  | some (f0, t0) =>
  match getCurrency ⟨f0⟩ with
  | Except.error _ => none
  | Except.ok fromCode =>
  match getCurrency ⟨t0⟩ with
  | Except.error _ => none
  | Except.ok toCode =>
  match info.rate with
  | none => none
  | some rate =>
  match info.timestamp with
  | none => none
  | some ts =>
  match info.source with
  | none => none
  | some src =>
      if !info.metaOk then none
      else if shouldReplace (assocGet currentPairs (fromCode ++ "_" ++ toCode)) ts then
        some ({ id := some (fromCode ++ "_" ++ toCode ++ "_" ++ ts), from_currency := fromCode,
                to_currency := toCode, rate := rate, timestamp := ts, source := src },
              some (fromCode ++ "_" ++ toCode,
                { rate := some rate, updated_at := some ts, source := some src }))
      else
        some ({ id := some (fromCode ++ "_" ++ toCode ++ "_" ++ ts), from_currency := fromCode,
                to_currency := toCode, rate := rate, timestamp := ts, source := src },
              none)

/-- One iteration of the candidate loop, threading the accumulated
`history_records` and `pairs_snapshot`. -/
def candStep (currentPairs : List (String × EntryVal))
    (acc : List HistRec × List (String × SnapEntry)) (c : String × RawInfo) :
    List HistRec × List (String × SnapEntry) :=
  match processPair currentPairs c.1 c.2 with
  | none => acc
  | some (h, none) => (acc.1 ++ [h], acc.2)
  | some (h, some kv) => (acc.1 ++ [h], assocSet acc.2 kv.1 kv.2)

/-- The whole candidate loop over `combined`. -/
def processAll (currentPairs : List (String × EntryVal))
    (combined : List (String × RawInfo)) :
    List HistRec × List (String × SnapEntry) :=
  combined.foldl (candStep currentPairs) ([], [])

/-- The `pairs` dict of the current on-disk snapshot (`current_pairs` in the
source, with its two defensive defaults). -/
def currentPairsOf (v : RatesJson) : List (String × EntryVal) :=
  match v with
  | RatesJson.obj (PairsField.dict es) _ => es
  | _ => []

/-- The result dict of a successful `run_update`. -/
structure UpdateResult where
  updated : Nat
  last_refresh : String
  errors : List String
deriving DecidableEq, Repr

/-- The two files the parser service owns. -/
structure Store where
  rates : FileState
  history : List HistEntry
deriving DecidableEq, Repr

/-- Model of `RatesUpdater.run_update`.  `now_z` is the `_utc_now_iso_z()`
stamp; an `Except.error` models the `ApiRequestError` raised when every
source failed, in which case no file is written. -/
def runUpdate (clients : List Client) (source : Option String) (st : Store)
    (now_z : String) : Except String (UpdateResult × Store) :=
  let fe := fetchAll (selectedClients clients source)
  let combined := fe.1
  let errors := fe.2
  if combined.isEmpty && !errors.isEmpty then
    Except.error ("Ни один источник не вернул данные. "
      ++ String.intercalate "; " errors)
  else
    let currentPairs := currentPairsOf (readJsonRates st.rates)
    let pr := processAll currentPairs combined
    let newHistory := appendHistory st.history pr.1
    let mergedPairs := assocUpdateAll currentPairs
      (pr.2.map fun kv => (kv.1, EntryVal.dict kv.2))
    let newRates :=
      FileState.json (RatesJson.obj (PairsField.dict mergedPairs) (some now_z))
    Except.ok
      ({ updated := pr.2.length, last_refresh := now_z, errors := errors },
       { rates := newRates, history := newHistory })

/-- The store after `run_update`, unchanged when the call raises. -/
def updateOrKeep (clients : List Client) (source : Option String) (st : Store)
    (now_z : String) : Store :=
  match runUpdate clients source st now_z with
  | Except.ok (_, st') => st'
  | Except.error _ => st

/-- The error string a client contributes to `errors`, as an `Option`. -/
def errOf (c : Client) : Option String :=
  match c.result with
  | Except.error r => some (c.className ++ ": " ++ apiErrorText r)
  | Except.ok _ => none

/-- The `updated` count of a `run_update` outcome (0 when it raised). -/
def updatedOf (x : Except String (UpdateResult × Store)) : Nat :=
  match x with
  | Except.ok (r, _) => r.updated
  | Except.error _ => 0

/-- The `errors` list of a `run_update` outcome. -/
def errorsOf (x : Except String (UpdateResult × Store)) : List String :=
  match x with
  | Except.ok (r, _) => r.errors
  | Except.error _ => []

/-- The snapshot part a single candidate contributes, if any. -/
def snapPartOf (currentPairs : List (String × EntryVal))
    (pi : String × RawInfo) : Option (String × SnapEntry) :=
  match processPair currentPairs pi.1 pi.2 with
  | some (_, some kv) => some kv
  | _ => none

/-- A sequence of update cycles: each step runs `run_update` with its own
clients, filter and clock, keeping the store unchanged when the cycle
raises. -/
def runSequence (steps : List (List Client × Option String × String))
    (st : Store) : Store :=
  steps.foldl (fun s stp => updateOrKeep stp.1 stp.2.1 s stp.2.2) st

/-- Modelled from the spec: client selection as the spec words it —
`source_filter` is a case-insensitive substring match against the provider
name, all clients when unset.  Stated only to compare against the source's
`clientSelected`. -/
def specClientSelected (source : Option String) (c : Client) : Bool :=
  match source with
  | none => true
  | some src => strContains (pyLower c.className) (pyLower src)

/-- Modelled from the spec: the clients the spec's selection rule keeps. -/
def specSelectedClients (clients : List Client) (source : Option String) :
    List Client :=
  clients.filter (specClientSelected source)

/-! ## Concrete fixtures used by counterexamples and witnesses -/

def cgFail : Client := { className := "CoinGeckoClient", result := Except.error "HTTP 500" }

def exFail : Client := { className := "ExchangeRateApiClient", result := Except.error "HTTP 502" }

def freshInfo : RawInfo :=
  { rate := some 2, timestamp := some "2026-01-02T00:00:00Z", source := some "CoinGecko", metaOk := true }

def cgOk : Client := { className := "CoinGeckoClient", result := Except.ok [("BTC_USD", freshInfo)] }

def emptyStore : Store := { rates := FileState.missing, history := [] }

def oldEntry : SnapEntry :=
  { rate := some 1, updated_at := some "2026-01-01T00:00:00Z", source := some "Old" }

def oldStore : Store :=
  { rates := FileState.json (RatesJson.obj (PairsField.dict [("BTC_USD", EntryVal.dict oldEntry)]) none),
    history := [] }

def emptyTsEntry : SnapEntry := { rate := some 5, updated_at := some "", source := some "Old" }

def emptyTsStore : Store :=
  { rates := FileState.json (RatesJson.obj (PairsField.dict [("BTC_USD", EntryVal.dict emptyTsEntry)]) none),
    history := [] }

def emptyTsInfo : RawInfo := { rate := some 7, timestamp := some "", source := some "New", metaOk := true }

def emptyTsClient : Client := { className := "FakeClient", result := Except.ok [("BTC_USD", emptyTsInfo)] }

def histSample : HistRec :=
  { id := some "BTC_USD_2026-01-02T00:00:00Z", from_currency := "BTC", to_currency := "USD",
    rate := 2, timestamp := "2026-01-02T00:00:00Z", source := "CoinGecko" }

/-- Last binding for a key in an association list (the one Python's
`dict.update` leaves in force). -/
def assocGetLast {α : Type} (m : List (String × α)) (k : String) : Option α :=
  match m with
  | [] => none
  | (k', v) :: rest =>
      match assocGetLast rest k with
      | some w => some w
      | none => if k' = k then some v else none

def t0Secs : Int := civilToEpochSecs 2026 1 1 0 0 0

def identityEntry (r : ℚ) : SnapEntry :=
  { rate := some r, updated_at := some "2026-01-01T00:00:00Z", source := some "S" }

def identityFs (u : String) (r : ℚ) : FileState :=
  FileState.json (RatesJson.obj
    (PairsField.dict [(u ++ "_" ++ u, EntryVal.dict (identityEntry r))]) none)

def histSample2 : HistRec :=
  { id := some "BTC_USD_2026-01-02T00:00:00Z", from_currency := "BTC", to_currency := "USD",
    rate := 3, timestamp := "2026-01-02T00:00:00Z", source := "Other" }

def newEntry : SnapEntry :=
  { rate := some 2, updated_at := some "2026-01-02T00:00:00Z", source := some "CoinGecko" }

def cexNewEntry : SnapEntry := { rate := some 7, updated_at := some "", source := some "New" }

def cexNewHist : HistRec :=
  { id := some "BTC_USD_", from_currency := "BTC", to_currency := "USD",
    rate := 7, timestamp := "", source := "New" }

def cexNewStore : Store :=
  { rates := FileState.json (RatesJson.obj
      (PairsField.dict [("BTC_USD", EntryVal.dict cexNewEntry)]) (some "2026-01-01T00:00:00Z")),
    history := [HistEntry.obj cexNewHist] }

/-! ## Helper lemmas -/

theorem strLtB_nil_right (l : List Char) : strLtB l [] = false := by
  cases l <;> rfl

theorem strLtB_irrefl (l : List Char) : strLtB l l = false := by
  induction l with
  | nil => rfl
  | cons a as ih => simp [strLtB, ih]

theorem strLtB_asymm {a b : List Char} (h : strLtB a b = true) :
    strLtB b a = false := by
  induction a generalizing b with
  | nil =>
      cases b with
      | nil => simp [strLtB] at h
      | cons x xs => simp [strLtB]
  | cons x xs ih =>
      cases b with
      | nil => simp [strLtB] at h
      | cons y ys =>
          by_cases hxy : x.toNat < y.toNat
          · have : ¬ y.toNat < x.toNat := Nat.lt_asymm hxy
            simp [strLtB, hxy, this]
          · by_cases hyx : y.toNat < x.toNat
            · simp [strLtB, hxy, hyx] at h
            · simp [strLtB, hxy, hyx] at h ⊢
              exact ih h

theorem strLtB_le_trans {a b c : List Char} (h1 : strLtB b a = false)
    (h2 : strLtB c b = false) : strLtB c a = false := by
  induction a generalizing b c with
  | nil => exact strLtB_nil_right c
  | cons x xs ih =>
      cases b with
      | nil => simp [strLtB] at h1
      | cons y ys =>
          cases c with
          | nil => simp [strLtB] at h2
          | cons z zs =>
              by_cases hyx : y.toNat < x.toNat
              · simp [strLtB, hyx] at h1
              · by_cases hzy : z.toNat < y.toNat
                · simp [strLtB, hzy] at h2
                · have hzx : ¬ z.toNat < x.toNat := by omega
                  by_cases hxy : x.toNat < y.toNat
                  · have hxz : x.toNat < z.toNat := by omega
                    simp [strLtB, hzx, hxz]
                  · by_cases hyz : y.toNat < z.toNat
                    · have hxz : x.toNat < z.toNat := by omega
                      simp [strLtB, hzx, hxz]
                    · have hxz : ¬ x.toNat < z.toNat := by omega
                      simp [strLtB, hyx, hxy] at h1
                      simp [strLtB, hzy, hyz] at h2
                      simp [strLtB, hzx, hxz]
                      exact ih h1 h2

theorem pyTruthy_eq_false_iff (s : String) : pyTruthy s = false ↔ s = "" := by
  cases s with
  | mk l =>
      cases l with
      | nil =>
          constructor
          · intro _
            rfl
          · intro _
            rfl
      | cons c cs =>
          constructor
          · intro h
            simp [pyTruthy] at h
          · intro h
            have : (String.mk (c :: cs)).data = ("" : String).data := by rw [h]
            simp at this

theorem assocGet_set {α : Type} (m : List (String × α)) (k k2 : String) (v : α) :
    assocGet (assocSet m k v) k2 = if k = k2 then some v else assocGet m k2 := by
  induction m with
  | nil => simp [assocGet, assocSet]
  | cons kv rest ih =>
      obtain ⟨k', v'⟩ := kv
      by_cases hk : k' = k
      · subst hk
        by_cases h2 : k' = k2 <;> simp [assocGet, assocSet, h2]
      · by_cases h2 : k' = k2
        · have hkk2 : ¬ k = k2 := fun h => hk (h2.trans h.symm)
          have hk2k : ¬ k2 = k := fun h => hkk2 h.symm
          simp [assocGet, assocSet, hk, h2, hkk2, hk2k]
        · simp [assocGet, assocSet, hk, h2, ih]

theorem assocSet_ne_nil {α : Type} (m : List (String × α)) (k : String) (v : α) :
    assocSet m k v ≠ [] := by
  cases m with
  | nil => simp [assocSet]
  | cons kv rest =>
      simp only [assocSet]
      split <;> simp

theorem assocGet_updateAll {α : Type} (kvs m : List (String × α)) (k : String) :
    assocGet (assocUpdateAll m kvs) k = (assocGetLast kvs k).or (assocGet m k) := by
  induction kvs generalizing m with
  | nil => simp [assocUpdateAll, assocGetLast, Option.or]
  | cons kv rest ih =>
      obtain ⟨k1, v1⟩ := kv
      have hstep : assocUpdateAll m ((k1, v1) :: rest) =
          assocUpdateAll (assocSet m k1 v1) rest := rfl
      rw [hstep, ih]
      cases hlast : assocGetLast rest k with
      | some w => simp [assocGetLast, hlast, Option.or]
      | none =>
          by_cases h1 : k1 = k <;>
            simp [assocGetLast, hlast, Option.or, assocGet_set, h1]

theorem shouldReplace_iff (e : SnapEntry) (ts : String) :
    shouldReplace (some (EntryVal.dict e)) ts = true ↔
      (e.updated_at.getD "" = "" ∨ pyStrLt (e.updated_at.getD "") ts = true) := by
  cases hT : pyTruthy (e.updated_at.getD "") with
  | false =>
      simp [shouldReplace, hT]
      exact Or.inl ((pyTruthy_eq_false_iff _).mp hT)
  | true =>
      cases hL : pyStrLt (e.updated_at.getD "") ts with
      | true => simp [shouldReplace, hT, hL]
      | false =>
          simp [shouldReplace, hT, hL]
          intro h
          have hf : pyTruthy (e.updated_at.getD "") = false :=
            (pyTruthy_eq_false_iff _).mpr h
          rw [hT] at hf
          exact Bool.noConfusion hf

theorem shouldReplace_not_lt (e : SnapEntry) (ts : String)
    (h : shouldReplace (some (EntryVal.dict e)) ts = true) :
    pyStrLt ts (e.updated_at.getD "") = false := by
  rcases (shouldReplace_iff e ts).mp h with he | hlt
  · rw [he]
    exact strLtB_nil_right _
  · exact strLtB_asymm hlt

theorem existingIds_append (a b : List HistEntry) :
    existingIds (a ++ b) = existingIds a ++ existingIds b := by
  simp [existingIds, List.filterMap_append]

theorem countId_append (a b : List HistEntry) (i : Option String) :
    countId (a ++ b) i = countId a i + countId b i := by
  simp [countId, List.filter_append]

theorem contains_cons_false {α : Type} [BEq α] {x a : α} {l : List α}
    (h : (x :: l).contains a = false) : (a == x) = false ∧ l.contains a = false := by
  cases hax : a == x with
  | true =>
      have : (x :: l).contains a = true := by simp [List.contains, List.elem, hax]
      rw [this] at h
      exact Bool.noConfusion h
  | false =>
      refine ⟨rfl, ?_⟩
      simp [List.contains, List.elem, hax] at h
      simp [List.contains, List.elem]
      exact h

theorem countId_zero_of_fresh (i : Option String) :
    ∀ data : List HistEntry, (existingIds data).contains i = false → countId data i = 0 := by
  intro data
  induction data with
  | nil => intro _; rfl
  | cons e rest ih =>
      intro h
      cases e with
      | obj r =>
          have hc : ((r.id :: existingIds rest)).contains i = false := by
            simpa [existingIds, List.filterMap_cons] using h
          obtain ⟨hax, hrest⟩ := contains_cons_false hc
          have hne : (r.id == i) = false := by
            refine beq_eq_false_iff_ne.mpr ?_
            intro hh
            rw [hh] at hax
            simp at hax
          have h0 := ih hrest
          simp [countId, List.filter_cons, hne] at h0 ⊢
          exact h0
      | nonDict =>
          have hrest : (existingIds rest).contains i = false := by
            simpa [existingIds, List.filterMap_cons] using h
          have h0 := ih hrest
          simp [countId, List.filter_cons] at h0 ⊢
          exact h0

/-- Claim C7: appending a record whose id is already stored leaves the
history unchanged, and appending a fresh record twice across two calls
stores it exactly once. -/
theorem appendHistory_dedup (data : List HistEntry) (r : HistRec) :
    ((existingIds data).contains r.id = true → appendHistory data [r] = data) ∧
    ((existingIds data).contains r.id = false →
      countId (appendHistory (appendHistory data [r]) [r]) r.id = 1) := by
  constructor
  · intro h
    have hmem : r.id ∈ existingIds data := by simpa using h
    simp [appendHistory, List.filter_cons, hmem]
  · intro h
    have hmem : r.id ∉ existingIds data := by simpa using h
    have h1 : appendHistory data [r] = data ++ [HistEntry.obj r] := by
      simp [appendHistory, List.filter_cons, hmem]
    have h2 : r.id ∈ existingIds (data ++ [HistEntry.obj r]) := by
      rw [existingIds_append]
      exact List.mem_append_right _ (by simp [existingIds])
    have h3 : appendHistory (data ++ [HistEntry.obj r]) [r] = data ++ [HistEntry.obj r] := by
      simp [appendHistory, List.filter_cons, h2]
    rw [h1, h3, countId_append, countId_zero_of_fresh r.id data h]
    simp [countId, List.filter_cons]

/-- Claim C9: within one append_history call, deduplication checks only the
already-stored ids, so a batch with two same-id records appends both. -/
theorem appendHistory_batch (data : List HistEntry) (r r' : HistRec)
    (hid : r'.id = r.id) (hfresh : (existingIds data).contains r.id = false) :
    appendHistory data [r, r'] = data ++ [HistEntry.obj r, HistEntry.obj r'] ∧
    countId (appendHistory data [r, r']) r.id = 2 := by
  have hmem : r.id ∉ existingIds data := by simpa using hfresh
  have h1 : appendHistory data [r, r'] = data ++ [HistEntry.obj r, HistEntry.obj r'] := by
    simp [appendHistory, List.filter_cons, hid, hmem]
  refine ⟨h1, ?_⟩
  rw [h1, countId_append, countId_zero_of_fresh r.id data hfresh]
  simp [countId, List.filter_cons, hid]

/-- Claim C7 witness: a concrete double append stores one record. -/
theorem appendHistory_dedup_witness :
    countId (appendHistory (appendHistory [] [histSample]) [histSample]) histSample.id = 1 :=
  (appendHistory_dedup [] histSample).2 (by decide)

/-- Claim C9 witness: a concrete same-id batch stores both records. -/
theorem appendHistory_batch_witness : appendHistory [] [histSample, histSample2] =
      [HistEntry.obj histSample, HistEntry.obj histSample2] ∧
    countId (appendHistory [] [histSample, histSample2]) histSample.id = 2 := by
  have h := appendHistory_batch [] histSample histSample2 (by decide) (by decide)
  simpa using h

/-- Claim C10: a missing, empty or unparseable rates file reads as the empty
default, and get_rate then reports the cache-empty condition (never a
corrupt-entry or parse failure). -/
theorem loadRates_default_cacheEmpty (f t fc tc : String) (ttl nu nl : Int)
    (fs : FileState)
    (hf : getCurrency f = Except.ok fc) (ht : getCurrency t = Except.ok tc)
    (hfs : fs = FileState.missing ∨ fs = FileState.empty ∨ fs = FileState.corrupt) :
    loadJsonRates fs = RatesJson.obj PairsField.absent none ∧
    readJsonRates fs = RatesJson.obj PairsField.absent none ∧
    getRate f t ttl nu nl fs = Except.error RateError.cacheEmpty := by
  have hload : loadJsonRates fs = RatesJson.obj PairsField.absent none := by
    rcases hfs with h | h | h <;> rw [h] <;> rfl
  have hread : readJsonRates fs = RatesJson.obj PairsField.absent none := by
    rcases hfs with h | h | h <;> rw [h] <;> rfl
  refine ⟨hload, hread, ?_⟩
  simp [getRate, hf, ht, readRatesDb, hload]

/-- Claim C10 witness at a concrete missing file. -/
theorem loadRates_default_cacheEmpty_witness :
    getRate "USD" "EUR" 300 0 0 FileState.missing = Except.error RateError.cacheEmpty :=
  (loadRates_default_cacheEmpty "USD" "EUR" "USD" "EUR" 300 0 0 FileState.missing
    (by decide) (by decide) (Or.inl rfl)).2.2

/-- Claim C1 counterexample: the identity pair USD/USD with an empty cache
does not return rate 1.0 — get_rate raises the cache-empty condition, so the
identity pair is not special-cased and does depend on the snapshot store. -/
theorem getRate_identity_cacheEmpty_cex :
    getRate "USD" "USD" 300 0 0 FileState.missing = Except.error RateError.cacheEmpty := by decide

/-- Claim C1 (amended): get_rate has no identity-pair special case — for
from == to it consults the snapshot like any other pair, failing with
CacheEmpty on a missing snapshot and returning whatever rate is cached under
the identity key when fresh. -/
theorem getRate_identity_amended (c u : String) (ttl nl : Int)
    (h : getCurrency c = Except.ok u) :
    getRate c c ttl t0Secs nl FileState.missing = Except.error RateError.cacheEmpty ∧
    (0 ≤ ttl → ∀ r : ℚ, getRate c c ttl t0Secs nl (identityFs u r) =
      Except.ok { pair := u ++ "_" ++ u, rate := r, updated_at := (t0Secs, true), source := "S" }) := by
  constructor
  · simp [getRate, h, readRatesDb, loadJsonRates]
  · intro httl r
    have hp : parseIso "2026-01-01T00:00:00Z" = some (t0Secs, true) := by decide
    have hage : ¬ ((0 : Int) > ttl) := by omega
    simp [getRate, h, identityFs, readRatesDb, loadJsonRates, identityEntry, assocGet,
      hp, Option.getD, sub_self, hage]

/-- Claim C1 witness: a cached identity entry with rate 2 is returned as 2. -/
theorem getRate_identity_amended_witness :
    getRate "usd" "usd" 300 t0Secs 0 (identityFs "USD" 2) =
      Except.ok { pair := "USD" ++ "_" ++ "USD", rate := 2, updated_at := (t0Secs, true), source := "S" } :=
  (getRate_identity_amended "usd" "USD" 300 0 (by decide)).2 (by decide) 2

theorem foldl_fetchStep_all_fail (l : List Client) :
    ∀ (m : List (String × RawInfo)) (es : List String),
      (∀ c ∈ l, c.result.isOk = false) →
      l.foldl fetchStep (m, es) = (m, es ++ l.filterMap errOf) := by
  induction l with
  | nil => intro m es _; simp
  | cons c rest ih =>
      intro m es h
      have hc := h c (List.mem_cons_self _ _)
      cases hres : c.result with
      | ok d =>
          rw [hres] at hc
          simp [Except.isOk, Except.toBool] at hc
      | error r =>
          have hrest : ∀ x ∈ rest, x.result.isOk = false :=
            fun x hx => h x (List.mem_cons_of_mem _ hx)
          simp only [List.foldl_cons, fetchStep, hres]
          rw [ih _ _ hrest]
          simp [errOf, hres]

theorem fetchAll_all_fail (l : List Client) (h : ∀ c ∈ l, c.result.isOk = false) :
    fetchAll l = ([], l.filterMap errOf) := by
  simpa [fetchAll] using foldl_fetchStep_all_fail l [] [] h

/-- Claim C3: when at least one client is selected and every selected client
fails, run_update raises the all-sources-failed error joining the individual
reasons, and neither file is modified. -/
theorem runUpdate_allSourcesFailed (clients : List Client) (source : Option String)
    (st : Store) (now_z : String)
    (hne : selectedClients clients source ≠ [])
    (hfail : ∀ c ∈ selectedClients clients source, c.result.isOk = false) :
    runUpdate clients source st now_z =
      Except.error ("Ни один источник не вернул данные. "
        ++ String.intercalate "; " ((selectedClients clients source).filterMap errOf)) ∧
    updateOrKeep clients source st now_z = st := by
  have hf := fetchAll_all_fail _ hfail
  have herr : (selectedClients clients source).filterMap errOf ≠ [] := by
    cases hsel : selectedClients clients source with
    | nil => exact absurd hsel hne
    | cons c rest =>
        have hc : c.result.isOk = false := hfail c (by rw [hsel]; exact List.mem_cons_self _ _)
        cases hres : c.result with
        | ok d =>
            rw [hres] at hc
            simp [Except.isOk, Except.toBool] at hc
        | error r => simp [List.filterMap_cons, errOf, hres]
  obtain ⟨e, es', heq⟩ := List.exists_cons_of_ne_nil herr
  have hrun : runUpdate clients source st now_z =
      Except.error ("Ни один источник не вернул данные. "
        ++ String.intercalate "; " ((selectedClients clients source).filterMap errOf)) := by
    simp [runUpdate, hf, heq]
  exact ⟨hrun, by simp [updateOrKeep, hrun]⟩

/-- Claim C3 witness: one failing client, concrete store. -/
theorem runUpdate_allSourcesFailed_witness :
    runUpdate [cgFail] none emptyStore "2026-01-02T00:00:00Z" =
      Except.error ("Ни один источник не вернул данные. "
        ++ String.intercalate "; " ((selectedClients [cgFail] none).filterMap errOf)) ∧
    updateOrKeep [cgFail] none emptyStore "2026-01-02T00:00:00Z" = emptyStore :=
  runUpdate_allSourcesFailed [cgFail] none emptyStore "2026-01-02T00:00:00Z"
    (by decide) (by decide)

/-- Claim C8: an empty selection raises nothing and rewrites the snapshot
with the old pairs and a fresh last_refresh. -/
theorem runUpdate_emptySelection (clients : List Client) (source : Option String)
    (st : Store) (now_z : String)
    (hsel : selectedClients clients source = []) :
    runUpdate clients source st now_z =
      Except.ok ({ updated := 0, last_refresh := now_z, errors := [] },
        { rates := FileState.json (RatesJson.obj
            (PairsField.dict (currentPairsOf (readJsonRates st.rates))) (some now_z)),
          history := st.history }) := by
  simp [runUpdate, hsel, fetchAll, processAll, appendHistory, assocUpdateAll, existingIds]

/-- Claim C8 witness: a filter that matches no client. -/
theorem runUpdate_emptySelection_witness :
    runUpdate [exFail] (some "coingecko") oldStore "2026-03-01T00:00:00Z" =
      Except.ok ({ updated := 0, last_refresh := "2026-03-01T00:00:00Z", errors := [] },
        { rates := FileState.json (RatesJson.obj
            (PairsField.dict (currentPairsOf (readJsonRates oldStore.rates))) (some "2026-03-01T00:00:00Z")),
          history := oldStore.history }) :=
  runUpdate_emptySelection [exFail] (some "coingecko") oldStore "2026-03-01T00:00:00Z" (by decide)

theorem candStep_ne_nil (current : List (String × EntryVal))
    (acc : List HistRec × List (String × SnapEntry)) (c : String × RawInfo)
    (h : acc.2 ≠ []) : (candStep current acc c).2 ≠ [] := by
  cases hp : processPair current c.1 c.2 with
  | none => simpa [candStep, hp] using h
  | some x =>
      obtain ⟨hrec, snap⟩ := x
      cases snap with
      | none => simpa [candStep, hp] using h
      | some kv =>
          simp [candStep, hp]
          exact assocSet_ne_nil _ _ _

theorem foldl_candStep_ne_nil (current : List (String × EntryVal))
    (l : List (String × RawInfo)) :
    ∀ acc, acc.2 ≠ [] → ((l.foldl (candStep current) acc).2) ≠ [] := by
  induction l with
  | nil => intro acc h; simpa using h
  | cons c rest ih =>
      intro acc h
      simp only [List.foldl_cons]
      exact ih _ (candStep_ne_nil current acc c h)

theorem foldl_candStep_wit (current : List (String × EntryVal))
    (pi : String × RawInfo) (hsome : (snapPartOf current pi).isSome = true) :
    ∀ (l : List (String × RawInfo)) acc, pi ∈ l →
      ((l.foldl (candStep current) acc).2) ≠ [] := by
  have hps : ∃ hrec kv, processPair current pi.1 pi.2 = some (hrec, some kv) := by
    unfold snapPartOf at hsome
    cases hp : processPair current pi.1 pi.2 with
    | none => rw [hp] at hsome; simp at hsome
    | some x =>
        obtain ⟨hrec, snap⟩ := x
        cases snap with
        | none => rw [hp] at hsome; simp at hsome
        | some kv => exact ⟨hrec, kv, rfl⟩
  obtain ⟨hrec, kv, hp⟩ := hps
  intro l
  induction l with
  | nil => intro acc h; cases h
  | cons c rest ih =>
      intro acc hmem
      rcases List.mem_cons.mp hmem with heq | hmem'
      · subst heq
        simp only [List.foldl_cons]
        refine foldl_candStep_ne_nil current rest _ ?_
        simp [candStep, hp]
        exact assocSet_ne_nil _ _ _
      · simp only [List.foldl_cons]
        exact ih _ hmem'

/-- Claim C4: with two clients of which exactly one fails and the successful
one contributing at least one valid, strictly-newer record, run_update does
not raise: it returns updated > 0 and the failed client's message as the
non-empty errors list. -/
theorem runUpdate_partialFailure (c1 c2 : Client) (st : Store) (now_z : String)
    (hone : (c1.result.isOk = false ∧ c2.result.isOk = true) ∨
            (c1.result.isOk = true ∧ c2.result.isOk = false))
    (hwit : ∃ pi, pi ∈ (fetchAll (selectedClients [c1, c2] none)).1 ∧
      (snapPartOf (currentPairsOf (readJsonRates st.rates)) pi).isSome = true) :
    (runUpdate [c1, c2] none st now_z).isOk = true ∧
    0 < updatedOf (runUpdate [c1, c2] none st now_z) ∧
    errorsOf (runUpdate [c1, c2] none st now_z) = [c1, c2].filterMap errOf ∧
    [c1, c2].filterMap errOf ≠ [] := by
  have hself : selectedClients [c1, c2] none = [c1, c2] := by
    simp [selectedClients, clientSelected]
  obtain ⟨pi, hmem, hsome⟩ := hwit
  rw [hself] at hmem
  have main : ∀ (cc : List (String × RawInfo)) (msg : String),
      fetchAll [c1, c2] = (cc, [msg]) →
      [c1, c2].filterMap errOf = [msg] →
      pi ∈ cc →
      (runUpdate [c1, c2] none st now_z).isOk = true ∧
      0 < updatedOf (runUpdate [c1, c2] none st now_z) ∧
      errorsOf (runUpdate [c1, c2] none st now_z) = [c1, c2].filterMap errOf ∧
      [c1, c2].filterMap errOf ≠ [] := by
    intro cc msg hfetch hfm hmemcc
    have hcne : cc ≠ [] := List.ne_nil_of_mem hmemcc
    have hcemp : cc.isEmpty = false := by
      cases cc with
      | nil => exact absurd rfl hcne
      | cons _ _ => rfl
    have hsnap : ((processAll (currentPairsOf (readJsonRates st.rates)) cc).2) ≠ [] :=
      foldl_candStep_wit _ pi hsome cc ([], [])  hmemcc
    refine ⟨?_, ?_, ?_, ?_⟩
    · simp [runUpdate, hself, hfetch, hcemp, Except.isOk, Except.toBool]
    · simp [runUpdate, hself, hfetch, hcemp, updatedOf]
      exact List.length_pos.mpr hsnap
    · simp [runUpdate, hself, hfetch, hcemp, errorsOf, hfm]
    · simp [hfm]
  rcases hone with ⟨h1, h2⟩ | ⟨h1, h2⟩
  · obtain ⟨r1, hres1⟩ : ∃ r, c1.result = Except.error r := by
      cases hres : c1.result with
      | ok d => rw [hres] at h1; simp [Except.isOk, Except.toBool] at h1
      | error r => exact ⟨r, rfl⟩
    obtain ⟨d2, hres2⟩ : ∃ d, c2.result = Except.ok d := by
      cases hres : c2.result with
      | ok d => exact ⟨d, rfl⟩
      | error r => rw [hres] at h2; simp [Except.isOk, Except.toBool] at h2
    have hfetch : fetchAll [c1, c2] = (assocUpdateAll [] d2,
        [c1.className ++ ": " ++ apiErrorText r1]) := by
      simp [fetchAll, fetchStep, hres1, hres2]
    have hfm : [c1, c2].filterMap errOf = [c1.className ++ ": " ++ apiErrorText r1] := by
      simp [errOf, hres1, hres2]
    refine main _ _ hfetch hfm ?_
    rw [hfetch] at hmem
    exact hmem
  · obtain ⟨d1, hres1⟩ : ∃ d, c1.result = Except.ok d := by
      cases hres : c1.result with
      | ok d => exact ⟨d, rfl⟩
      | error r => rw [hres] at h1; simp [Except.isOk, Except.toBool] at h1
    obtain ⟨r2, hres2⟩ : ∃ r, c2.result = Except.error r := by
      cases hres : c2.result with
      | ok d => rw [hres] at h2; simp [Except.isOk, Except.toBool] at h2
      | error r => exact ⟨r, rfl⟩
    have hfetch : fetchAll [c1, c2] = (assocUpdateAll [] d1,
        [c2.className ++ ": " ++ apiErrorText r2]) := by
      simp [fetchAll, fetchStep, hres1, hres2]
    have hfm : [c1, c2].filterMap errOf = [c2.className ++ ": " ++ apiErrorText r2] := by
      simp [errOf, hres1, hres2]
    refine main _ _ hfetch hfm ?_
    rw [hfetch] at hmem
    exact hmem

/-- Claim C4 witness: one failing and one succeeding concrete client. -/
theorem runUpdate_partialFailure_witness :
    (runUpdate [exFail, cgOk] none emptyStore "2026-01-02T00:00:01Z").isOk = true ∧
    0 < updatedOf (runUpdate [exFail, cgOk] none emptyStore "2026-01-02T00:00:01Z") ∧
    errorsOf (runUpdate [exFail, cgOk] none emptyStore "2026-01-02T00:00:01Z") =
      [exFail, cgOk].filterMap errOf ∧
    [exFail, cgOk].filterMap errOf ≠ [] :=
  runUpdate_partialFailure exFail cgOk emptyStore "2026-01-02T00:00:01Z"
    (Or.inl (by decide))
    ⟨("BTC_USD", freshInfo), by decide, by decide⟩

theorem mem_assocSet {α : Type} (m : List (String × α)) (k : String) (v : α) :
    ∀ x ∈ assocSet m k v, x ∈ m ∨ x = (k, v) := by
  induction m with
  | nil =>
      intro x hx
      simp [assocSet] at hx
      exact Or.inr hx
  | cons kv rest ih =>
      obtain ⟨k', v'⟩ := kv
      intro x hx
      by_cases hkk : k' = k
      · simp [assocSet, hkk] at hx
        rcases hx with hx | hx
        · exact Or.inr (by rw [hx])
        · exact Or.inl (List.mem_cons_of_mem _ hx)
      · simp [assocSet, hkk] at hx
        rcases hx with hx | hx
        · exact Or.inl (by rw [hx]; exact List.mem_cons_self _ _)
        · rcases ih x hx with h | h
          · exact Or.inl (List.mem_cons_of_mem _ h)
          · exact Or.inr h

theorem assocGetLast_mem {α : Type} (m : List (String × α)) (k : String) (v : α)
    (h : assocGetLast m k = some v) : (k, v) ∈ m := by
  induction m with
  | nil => exact absurd h (by simp [assocGetLast])
  | cons kv rest ih =>
      obtain ⟨k', v'⟩ := kv
      cases hl : assocGetLast rest k with
      | some w =>
          rw [assocGetLast, hl] at h
          injection h with h
          exact List.mem_cons_of_mem _ (ih (by rw [hl, h]))
      | none =>
          rw [assocGetLast, hl] at h
          by_cases hkk : k' = k
          · rw [if_pos hkk] at h
            injection h with h
            subst hkk
            rw [← h]
            exact List.mem_cons_self _ _
          · rw [if_neg hkk] at h
            exact absurd h (by simp)

theorem processPair_replace_sound (current : List (String × EntryVal)) (p : String)
    (info : RawInfo) (hrec : HistRec) (k : String) (e : SnapEntry)
    (h : processPair current p info = some (hrec, some (k, e))) :
    ∃ ts, e.updated_at = some ts ∧ shouldReplace (assocGet current k) ts = true := by
  unfold processPair at h
  split at h
  · exact Option.noConfusion h
  · split at h
    · exact Option.noConfusion h
    · split at h
      · exact Option.noConfusion h
      · split at h
        · exact Option.noConfusion h
        · split at h
          · exact Option.noConfusion h
          · split at h
            · exact Option.noConfusion h
            · split at h
              · exact Option.noConfusion h
              · split at h
                all_goals first
                  | exact Option.noConfusion h
                  | (injection h with h'
                     have h2 := congrArg Prod.snd h'
                     simp at h2
                     done)
                  | (injection h with h'
                     have h2 := congrArg Prod.snd h'
                     simp only [] at h2
                     injection h2 with h3
                     have hk := congrArg Prod.fst h3
                     have he := congrArg Prod.snd h3
                     simp only [] at hk he
                     exact ⟨_, by rw [← he], by rw [← hk]; assumption⟩)

theorem store_new_pairs (es : List (String × EntryVal)) (lr : Option String)
    (hist : List HistEntry) :
    currentPairsOf (readJsonRates
      (Store.mk (FileState.json (RatesJson.obj (PairsField.dict es) lr)) hist).rates) = es := rfl

theorem foldl_candStep_mem_sound (current : List (String × EntryVal)) :
    ∀ (l : List (String × RawInfo)) (acc : List HistRec × List (String × SnapEntry)),
      (∀ k e, (k, e) ∈ acc.2 →
        ∃ ts, e.updated_at = some ts ∧ shouldReplace (assocGet current k) ts = true) →
      ∀ k e, (k, e) ∈ (l.foldl (candStep current) acc).2 →
        ∃ ts, e.updated_at = some ts ∧ shouldReplace (assocGet current k) ts = true := by
  intro l
  induction l with
  | nil =>
      intro acc hacc k e hmem
      exact hacc k e hmem
  | cons c rest ih =>
      intro acc hacc k e hmem
      rw [List.foldl_cons] at hmem
      refine ih _ ?_ k e hmem
      intro k2 e2 hm2
      cases hp : processPair current c.1 c.2 with
      | none => exact hacc k2 e2 (by simpa [candStep, hp] using hm2)
      | some x =>
          obtain ⟨hr2, snap⟩ := x
          cases snap with
          | none => exact hacc k2 e2 (by simpa [candStep, hp] using hm2)
          | some kv =>
              obtain ⟨kk, ee⟩ := kv
              have hm3 : (k2, e2) ∈ assocSet acc.2 kk ee := by
                simpa [candStep, hp] using hm2
              rcases mem_assocSet _ _ _ _ hm3 with holdm | hnewm
              · exact hacc k2 e2 holdm
              · have hk2 : k2 = kk := congrArg Prod.fst hnewm
                have he2 : e2 = ee := congrArg Prod.snd hnewm
                rw [hk2, he2]
                exact processPair_replace_sound current c.1 c.2 hr2 kk ee hp

theorem runUpdate_ok_lookup (clients : List Client) (source : Option String)
    (st : Store) (now_z : String) (res : UpdateResult) (st' : Store)
    (k : String) (e : SnapEntry)
    (hrun : runUpdate clients source st now_z = Except.ok (res, st'))
    (hold : assocGet (currentPairsOf (readJsonRates st.rates)) k = some (EntryVal.dict e)) :
    ∃ e', assocGet (currentPairsOf (readJsonRates st'.rates)) k = some (EntryVal.dict e') ∧
      pyStrLt (e'.updated_at.getD "") (e.updated_at.getD "") = false := by
  simp only [runUpdate] at hrun
  split at hrun
  · exact Except.noConfusion hrun
  · injection hrun with h'
    rw [Prod.mk.injEq] at h'
    obtain ⟨hres, hst⟩ := h'
    subst hst
    rw [store_new_pairs]
    rw [assocGet_updateAll]
    cases hlast : assocGetLast
        (((processAll (currentPairsOf (readJsonRates st.rates))
            (fetchAll (selectedClients clients source)).1).2).map
          (fun kv => (kv.1, EntryVal.dict kv.2))) k with
    | none =>
        refine ⟨e, ?_, strLtB_irrefl _⟩
        simp [Option.or, hold]
    | some v =>
        have hmemv := assocGetLast_mem _ _ _ hlast
        obtain ⟨kv0, hkv0mem, hkv0eq⟩ := List.mem_map.mp hmemv
        have hk0 : kv0.1 = k := congrArg Prod.fst hkv0eq
        have hv0 : EntryVal.dict kv0.2 = v := congrArg Prod.snd hkv0eq
        have hsound := foldl_candStep_mem_sound
          (currentPairsOf (readJsonRates st.rates)) _ ([], [])
          (by intro k2 e2 hm; cases hm) kv0.1 kv0.2 hkv0mem
        obtain ⟨ts, hts, hrep⟩ := hsound
        rw [hk0, hold] at hrep
        have hnotlt := shouldReplace_not_lt e ts hrep
        refine ⟨kv0.2, ?_, ?_⟩
        · simp [Option.or, ← hv0]
        · rw [hts]
          simpa using hnotlt

theorem runUpdate_monotone (clients : List Client) (source : Option String)
    (st : Store) (now_z : String) (res : UpdateResult) (st' : Store)
    (k : String) (e e' : SnapEntry)
    (hrun : runUpdate clients source st now_z = Except.ok (res, st'))
    (hold : assocGet (currentPairsOf (readJsonRates st.rates)) k = some (EntryVal.dict e))
    (hnew : assocGet (currentPairsOf (readJsonRates st'.rates)) k = some (EntryVal.dict e')) :
    pyStrLt (e'.updated_at.getD "") (e.updated_at.getD "") = false := by
  obtain ⟨e'', hlook, hle⟩ := runUpdate_ok_lookup clients source st now_z res st' k e hrun hold
  rw [hnew] at hlook
  injection hlook with hh
  injection hh with hh2
  rw [hh2]
  exact hle

theorem updateOrKeep_step (clients : List Client) (source : Option String)
    (st : Store) (now_z : String) (k : String) (e : SnapEntry)
    (hold : assocGet (currentPairsOf (readJsonRates st.rates)) k = some (EntryVal.dict e)) :
    ∃ e', assocGet (currentPairsOf (readJsonRates
        (updateOrKeep clients source st now_z).rates)) k = some (EntryVal.dict e') ∧
      pyStrLt (e'.updated_at.getD "") (e.updated_at.getD "") = false := by
  unfold updateOrKeep
  cases hrun : runUpdate clients source st now_z with
  | error msg => exact ⟨e, hold, strLtB_irrefl _⟩
  | ok pair =>
      obtain ⟨res, st'⟩ := pair
      exact runUpdate_ok_lookup clients source st now_z res st' k e hrun hold

theorem runSequence_monotone (steps : List (List Client × Option String × String)) :
    ∀ (st : Store) (k : String) (e : SnapEntry),
      assocGet (currentPairsOf (readJsonRates st.rates)) k = some (EntryVal.dict e) →
      ∃ e', assocGet (currentPairsOf (readJsonRates (runSequence steps st).rates)) k
          = some (EntryVal.dict e') ∧
        pyStrLt (e'.updated_at.getD "") (e.updated_at.getD "") = false := by
  induction steps with
  | nil =>
      intro st k e hold
      exact ⟨e, hold, strLtB_irrefl _⟩
  | cons s rest ih =>
      intro st k e hold
      obtain ⟨e1, h1, hle1⟩ := updateOrKeep_step s.1 s.2.1 st s.2.2 k e hold
      obtain ⟨e2, h2, hle2⟩ := ih _ k e1 h1
      refine ⟨e2, ?_, strLtB_le_trans hle1 hle2⟩
      simpa [runSequence] using h2

/-- Claim C2 counterexample: a stored entry with empty updated_at and a
candidate with an equal (empty) timestamp is replaced and counted as
updated, contradicting the claim that equal timestamps are skipped. -/
theorem merge_equalEmptyTs_cex :
    emptyTsEntry.updated_at.getD "" = "" ∧
    emptyTsInfo.timestamp = some "" ∧
    runUpdate [emptyTsClient] none emptyTsStore "2026-01-01T00:00:00Z" =
      Except.ok ({ updated := 1, last_refresh := "2026-01-01T00:00:00Z", errors := [] },
        cexNewStore) ∧
    EntryVal.dict emptyTsEntry ≠ EntryVal.dict cexNewEntry := by
  decide

/-- Claim C2 (amended): a candidate replaces a stored dict entry exactly when
the stored updated_at is empty/missing (Python-falsy) or lexicographically
strictly smaller than the candidate timestamp — with a nonempty stored
updated_at this is precisely the strict-greater rule; and the stored
updated_at never decreases, across one run_update and across any sequence of
merges. -/
theorem merge_freshness_amended :
    (∀ (e : SnapEntry) (ts : String),
      shouldReplace (some (EntryVal.dict e)) ts = true ↔
        (e.updated_at.getD "" = "" ∨ pyStrLt (e.updated_at.getD "") ts = true)) ∧
    (∀ (clients : List Client) (source : Option String) (st : Store) (now_z : String)
        (res : UpdateResult) (st' : Store) (k : String) (e e' : SnapEntry),
      runUpdate clients source st now_z = Except.ok (res, st') →
      assocGet (currentPairsOf (readJsonRates st.rates)) k = some (EntryVal.dict e) →
      assocGet (currentPairsOf (readJsonRates st'.rates)) k = some (EntryVal.dict e') →
      pyStrLt (e'.updated_at.getD "") (e.updated_at.getD "") = false) ∧
    (∀ (steps : List (List Client × Option String × String)) (st : Store)
        (k : String) (e : SnapEntry),
      assocGet (currentPairsOf (readJsonRates st.rates)) k = some (EntryVal.dict e) →
      ∃ e', assocGet (currentPairsOf (readJsonRates (runSequence steps st).rates)) k
          = some (EntryVal.dict e') ∧
        pyStrLt (e'.updated_at.getD "") (e.updated_at.getD "") = false) :=
  ⟨shouldReplace_iff, runUpdate_monotone, runSequence_monotone⟩

/-- Claim C2 witness: a concrete merge keeps updated_at non-decreasing. -/
theorem merge_freshness_amended_witness :
    pyStrLt (newEntry.updated_at.getD "") (oldEntry.updated_at.getD "") = false :=
  merge_freshness_amended.2.1 [cgOk] none oldStore "2026-01-02T00:00:05Z"
    { updated := 1, last_refresh := "2026-01-02T00:00:05Z", errors := [] }
    { rates := FileState.json (RatesJson.obj
        (PairsField.dict [("BTC_USD", EntryVal.dict newEntry)]) (some "2026-01-02T00:00:05Z")),
      history := [HistEntry.obj histSample] }
    "BTC_USD" oldEntry newEntry (by decide) (by decide) (by decide)

/-- Claim C5: for a cached entry with a parseable updated_at, get_rate is
stale exactly when the age computed against the awareness-matched clock
strictly exceeds the TTL; age TTL+1 is stale, age TTL-1 succeeds (when the
rate parses). -/
theorem getRate_ttl_boundary (f t fc tc : String) (ttl nu nl : Int)
    (entries : List (String × EntryVal)) (lr : Option String) (e : SnapEntry)
    (ts : Int) (aware : Bool)
    (hf : getCurrency f = Except.ok fc) (ht : getCurrency t = Except.ok tc)
    (hne : entries ≠ [])
    (hget : assocGet entries (fc ++ "_" ++ tc) = some (EntryVal.dict e))
    (hparse : parseIso (e.updated_at.getD "") = some (ts, aware)) :
    (getRate f t ttl nu nl (FileState.json (RatesJson.obj (PairsField.dict entries) lr)) =
        Except.error (RateError.stale (fc ++ "_" ++ tc)) ↔
      (if aware then nu else nl) - ts > ttl) ∧
    ((if aware then nu else nl) - ts = ttl + 1 →
      getRate f t ttl nu nl (FileState.json (RatesJson.obj (PairsField.dict entries) lr)) =
        Except.error (RateError.stale (fc ++ "_" ++ tc))) ∧
    ((if aware then nu else nl) - ts = ttl - 1 → ∀ r : ℚ, e.rate = some r →
      getRate f t ttl nu nl (FileState.json (RatesJson.obj (PairsField.dict entries) lr)) =
        Except.ok { pair := fc ++ "_" ++ tc, rate := r, updated_at := (ts, aware),
                    source := e.source.getD "unknown" }) := by
  have hemp : entries.isEmpty = false := by
    cases entries with
    | nil => exact absurd rfl hne
    | cons _ _ => rfl
  refine ⟨?_, ?_, ?_⟩
  · by_cases hc : (if aware then nu else nl) - ts > ttl
    · simp [getRate, hf, ht, readRatesDb, loadJsonRates, hemp, hget, hparse, hc]
    · cases hr : e.rate with
      | none =>
          simp [getRate, hf, ht, readRatesDb, loadJsonRates, hemp, hget, hparse, hc, hr]
      | some r =>
          simp [getRate, hf, ht, readRatesDb, loadJsonRates, hemp, hget, hparse, hc, hr]
  · intro h
    have hc : (if aware then nu else nl) - ts > ttl := by omega
    simp [getRate, hf, ht, readRatesDb, loadJsonRates, hemp, hget, hparse, hc]
  · intro h r hr
    have hc : ¬ ((if aware then nu else nl) - ts > ttl) := by omega
    simp [getRate, hf, ht, readRatesDb, loadJsonRates, hemp, hget, hparse, hc, hr]

/-- Claim C5 witness: a concrete entry aged TTL+1 seconds is stale. -/
theorem getRate_ttl_boundary_witness :
    getRate "BTC" "USD" 300 (t0Secs + 301) 0
      (FileState.json (RatesJson.obj (PairsField.dict [("BTC_USD", EntryVal.dict oldEntry)]) none)) =
      Except.error (RateError.stale ("BTC" ++ "_" ++ "USD")) :=
  (getRate_ttl_boundary "BTC" "USD" "BTC" "USD" 300 (t0Secs + 301) 0
    [("BTC_USD", EntryVal.dict oldEntry)] none oldEntry t0Secs true
    (by decide) (by decide) (by decide) (by decide) (by decide)).2.1 (by decide)

/-- Claim C6 counterexample: the filter string gecko is a case-insensitive
substring of CoinGeckoClient only, yet the code selects both clients, so
selection is not substring matching. -/
theorem selection_filter_cex :
    selectedClients [cgOk, exFail] (some "gecko") = [cgOk, exFail] ∧
    specSelectedClients [cgOk, exFail] (some "gecko") = [cgOk] ∧
    selectedClients [cgOk, exFail] (some "gecko") ≠
      specSelectedClients [cgOk, exFail] (some "gecko") := by
  decide

/-- Claim C6 (amended): an unset or empty filter selects all clients; the
literal coingecko keeps clients whose lowercased class name contains
coingecko; the three exchangerate literals keep those containing exchange;
every other filter string selects all clients. -/
theorem selection_filter_amended (clients : List Client) (src : String) :
    (selectedClients clients none = clients) ∧
    (src = "" → selectedClients clients (some src) = clients) ∧
    (pyLower src = "coingecko" →
      selectedClients clients (some src) =
        clients.filter (fun c => strContains (pyLower c.className) "coingecko")) ∧
    ((pyLower src = "exchangerate" ∨ pyLower src = "exchangerate-api" ∨
        pyLower src = "exchangerateapi") →
      selectedClients clients (some src) =
        clients.filter (fun c => strContains (pyLower c.className) "exchange")) ∧
    (src ≠ "" → pyLower src ≠ "coingecko" → pyLower src ≠ "exchangerate" →
      pyLower src ≠ "exchangerate-api" → pyLower src ≠ "exchangerateapi" →
      selectedClients clients (some src) = clients) := by
  refine ⟨?_, ?_, ?_, ?_, ?_⟩
  · simp [selectedClients, clientSelected]
  · intro h
    simp [selectedClients, clientSelected, h]
  · intro h
    have hne : src ≠ "" := by
      intro h0
      rw [h0] at h
      exact absurd h (by decide)
    simp only [selectedClients]
    refine List.filter_congr ?_
    intro c _
    simp [clientSelected, hne, h]
  · intro h
    have hne : src ≠ "" := by
      intro h0
      rw [h0] at h
      rcases h with h | h | h <;> exact absurd h (by decide)
    have hcg : pyLower src ≠ "coingecko" := by
      rcases h with h | h | h <;> rw [h] <;> decide
    simp only [selectedClients]
    refine List.filter_congr ?_
    intro c _
    rcases h with h | h | h <;> simp [clientSelected, hne, hcg, h]
  · intro h0 h1 h2 h3 h4
    simp [selectedClients, clientSelected, h0, h1, h2, h3, h4]

/-- Claim C6 witness: the coingecko literal filters to the matching client. -/
theorem selection_filter_amended_witness :
    selectedClients [cgOk, exFail] (some "coingecko") =
      [cgOk, exFail].filter (fun c => strContains (pyLower c.className) "coingecko") :=
  (selection_filter_amended [cgOk, exFail] "coingecko").2.2.1 (by decide)

end VH
